import Mathlib

/-!
Verification development for the Goodnotes calendar generator
(`generate_calendar.py`).

The program is a single Python script that renders a five-year clickable
PDF calendar.  Everything relevant to the claims is pure arithmetic, so it
is shallowly embedded here:

* Python `float` values are IEEE-754 binary64 numbers.  Every float the
  program manipulates is a dyadic rational, represented by the structure
  `Dy` (value `m * 2^e`).  Rounding to nearest, ties to even — the IEEE
  semantics of Python's arithmetic on ints and floats in the normal range,
  which covers every value this program computes — is implemented by
  `rndRat` (correctly rounded quotient of two naturals, used for Python's
  `int / int` true division and for decimal literals such as `1.1`, `0.4`)
  and by `rndDy` (rounding of an exact dyadic intermediate, used after
  exact products, sums and differences of doubles).  All operations are
  gcd-free integer arithmetic so that `decide` can evaluate them in the
  kernel; the rational denotation `den` is used only in proofs.
* Python's `calendar` module (`Calendar(firstweekday=SUNDAY)
  .monthdayscalendar`) and the proleptic-Gregorian weekday arithmetic of
  `datetime` are embedded as `monthdayscalendar`, `toordinal`, `weekday`.
* Colors are `(r, g, b)` triples of naturals; `HexColor`/`hexval`
  round-trips 8-bit channels exactly, so a color is identified with its
  channel triple.
-/

/-- Fuel-driven base-2 logarithm on naturals (structural recursion so the
kernel can evaluate it): `log2fuel fuel n` counts halvings of `n` down to
`1`, provided `n ≤ fuel`. -/
def log2fuel : ℕ → ℕ → ℕ
  | 0, _ => 0
  | fuel + 1, n => if 2 ≤ n then log2fuel fuel (n / 2) + 1 else 0

/-- Floor of the base-2 logarithm of a positive natural. -/
def log2N (n : ℕ) : ℕ := log2fuel n n

/-- A dyadic rational `m * 2 ^ e`: the exact value of an IEEE-754 binary64
number, and of every exact intermediate the embedded program forms. -/
structure Dy where
  m : ℤ
  e : ℤ
deriving DecidableEq, Repr

/-- Rational denotation of a dyadic. Used in proofs only. -/
def den (a : Dy) : ℚ := (a.m : ℚ) * (2 : ℚ) ^ a.e

/-- Exact product of dyadics. -/
def dyMul (a b : Dy) : Dy := ⟨a.m * b.m, a.e + b.e⟩

/-- Exact sum of dyadics (align exponents). -/
def dyAdd (a b : Dy) : Dy :=
  if a.e ≤ b.e then ⟨a.m + b.m * 2 ^ (b.e - a.e).toNat, a.e⟩
  else ⟨a.m * 2 ^ (a.e - b.e).toNat + b.m, b.e⟩

/-- Exact difference of dyadics. -/
def dySub (a b : Dy) : Dy := dyAdd a ⟨-b.m, b.e⟩

/-- Absolute value of a dyadic. -/
def dyabs (a : Dy) : Dy := ⟨|a.m|, a.e⟩

/-- Decidable value comparison of dyadics (`den a ≤ den b`). -/
def dyle (a b : Dy) : Bool := decide (0 ≤ (dySub b a).m)

/-- Decidable value equality of dyadics (`den a = den b`). -/
def dyeq (a b : Dy) : Bool := decide ((dySub b a).m = 0)

/-- Floor of a dyadic as an integer.  For the nonnegative values this
program produces it coincides with Python's `int()` truncation. -/
def dyFloor (a : Dy) : ℤ :=
  if 0 ≤ a.e then a.m * 2 ^ a.e.toNat else a.m / (2 ^ (-a.e).toNat : ℤ)

/-- Decides `2 ^ k ≤ n / d` for naturals `n, d ≥ 1` without rational
arithmetic. -/
def pow2le (k : ℤ) (n d : ℕ) : Bool :=
  if 0 ≤ k then d * 2 ^ k.toNat ≤ n else d ≤ n * 2 ^ (-k).toNat

/-- Round the quotient `N / D` to the nearest natural, ties to even
(`2 * (N % D)` vs. `D` decides which neighbour is closer). -/
def rneIntNat (N D : ℕ) : ℕ :=
  if 2 * (N % D) < D then N / D
  else if D < 2 * (N % D) then N / D + 1
  else if (N / D) % 2 = 0 then N / D else N / D + 1

/-- The binade exponent of `n / d` (`2 ^ ratExp n d ≤ n / d <
2 ^ (ratExp n d + 1)` for `n, d ≥ 1`). -/
def ratExp (n d : ℕ) : ℤ :=
  if pow2le ((log2N n : ℤ) - (log2N d : ℤ)) n d
  then (log2N n : ℤ) - (log2N d : ℤ) else (log2N n : ℤ) - (log2N d : ℤ) - 1

/-- Correctly rounded (nearest, ties to even) binary64 value of the exact
quotient `n / d` of two naturals: scale `n / d` into `[2^52, 2^53)` and
round the 53-bit mantissa.  This is the semantics of Python's `int / int`
true division and of decimal float literals; all values the program
divides stay in the normal binary64 range. -/
def rndRat (n d : ℕ) : Dy :=
  if n = 0 ∨ d = 0 then ⟨0, 0⟩
  else
    ⟨(rneIntNat (n * 2 ^ (max (52 - ratExp n d) 0).toNat)
        (d * 2 ^ (max (-(52 - ratExp n d)) 0).toNat) : ℤ),
     ratExp n d - 52⟩

/-- Round an exact dyadic intermediate (product, sum or difference of two
binary64 values) back to binary64: if the mantissa fits in 53 bits the
value is exact, otherwise the low `log2N |m| - 52` bits are rounded off,
nearest, ties to even. -/
def rndDy (a : Dy) : Dy :=
  if a.m = 0 then ⟨0, 0⟩
  else if log2N a.m.natAbs ≤ 52 then a
  else
    ⟨(if a.m < 0 then -(rneIntNat a.m.natAbs (2 ^ (log2N a.m.natAbs - 52)) : ℤ)
      else (rneIntNat a.m.natAbs (2 ^ (log2N a.m.natAbs - 52)) : ℤ)),
     a.e + ((log2N a.m.natAbs - 52 : ℕ) : ℤ)⟩

/-! ## Configuration constants of `generate_calendar.py` -/

/-- `YEARS = [2020, 2021, 2022, 2023, 2024]`. -/
def YEARS : List ℕ := [2020, 2021, 2022, 2023, 2024]

/-- `MONTHS = list(range(1, 13))`. -/
def MONTHS : List ℕ := List.range' 1 12

/-- `MONTH_NAMES`. -/
def MONTH_NAMES : List String :=
  ["JAN", "FEB", "MAR", "APR", "MAY", "JUN",
   "JUL", "AUG", "SEP", "OCT", "NOV", "DEC"]

/-- A color as its 8-bit RGB channels. -/
abbrev RGB := ℕ × ℕ × ℕ

/-- `YEAR_BASE_COLORS`: the five per-year base colors, as RGB triples of
their hex codes (`#8B4566`, `#A87632`, `#8B8B3A`, `#5A7A6A`, `#5A6A8B`). -/
def YEAR_BASE_COLORS : List RGB :=
  [(0x8B, 0x45, 0x66), (0xA8, 0x76, 0x32), (0x8B, 0x8B, 0x3A),
   (0x5A, 0x7A, 0x6A), (0x5A, 0x6A, 0x8B)]

/-! ## Color shade generator (`generate_month_shades`) -/

/-- The binary64 value of the literal `1.1`. -/
def lit11 : Dy := rndRat 11 10

/-- The binary64 value of the literal `0.4`. -/
def lit04 : Dy := rndRat 2 5

/-- The binary64 value of the literal `0.5` (exactly representable). -/
def lit05 : Dy := ⟨1, -1⟩

/-- `factor = 0.5 + (i / (num_shades - 1)) * 1.1`, evaluated in binary64
exactly as Python does: a correctly rounded true division, a rounded
product with `1.1`, and a rounded sum with `0.5`. -/
def shade_factor (num_shades i : ℕ) : Dy :=
  rndDy (dyAdd lit05 (rndDy (dyMul (rndRat i (num_shades - 1)) lit11)))

/-- `min(255, max(30, x))` on the truncated channel value. -/
def clamp_channel (x : ℤ) : ℕ := (min 255 (max 30 x)).toNat

/-- One output channel: `min(255, max(30, int(c * factor)))` with the
product `c * factor` rounded in binary64 and truncated by `int()` (the
product is nonnegative, so truncation is the floor). -/
def shade_channel (c num_shades i : ℕ) : ℕ :=
  clamp_channel (dyFloor (rndDy (dyMul ⟨(c : ℤ), 0⟩ (shade_factor num_shades i))))

/-- `generate_month_shades(base_color, num_shades)`.  Returns `none` for
`num_shades = 1`: the first loop iteration evaluates `0 / 0` and Python
raises `ZeroDivisionError` (for `num_shades = 0` the loop body never runs
and the empty list is returned). -/
def generate_month_shades (base : RGB) (num_shades : ℕ) : Option (List RGB) :=
  if num_shades = 1 then none
  else some ((List.range num_shades).map fun i =>
    (shade_channel base.1 num_shades i,
     shade_channel base.2.1 num_shades i,
     shade_channel base.2.2 num_shades i))

/-- `YEAR_MONTH_COLORS[year] = generate_month_shades(YEAR_BASE_COLORS[idx])`
for `idx` the position of `year` in `YEARS` (12 shades; the `Option` is
resolved by `getD` since 12 ≠ 1). -/
def YEAR_MONTH_COLORS (year : ℕ) : List RGB :=
  (generate_month_shades (YEAR_BASE_COLORS.getD (YEARS.indexOf year) (0, 0, 0)) 12).getD []

/-! ## Calendar arithmetic (Python `calendar` / `datetime` semantics) -/

/-- Gregorian leap-year rule (`calendar.isleap`). -/
def isLeap (y : ℕ) : Bool := (y % 4 = 0 && y % 100 ≠ 0) || y % 400 = 0

/-- Number of days in month `m` (1-based) of year `y`
(`calendar.monthrange`). -/
def days_in_month (y m : ℕ) : ℕ :=
  if m = 2 then (if isLeap y then 29 else 28)
  else [31, 28, 31, 30, 31, 30, 31, 31, 30, 31, 30, 31].getD (m - 1) 0

/-- Days in months `1 .. m-1` of year `y`. -/
def days_before_month (y m : ℕ) : ℕ :=
  ((List.range (m - 1)).map fun k => days_in_month y (k + 1)).sum

/-- Proleptic-Gregorian ordinal of a date (`datetime.date.toordinal`):
day `0001-01-01` is ordinal `1`. -/
def toordinal (y m d : ℕ) : ℕ :=
  365 * (y - 1) + (y - 1) / 4 - (y - 1) / 100 + (y - 1) / 400
    + days_before_month y m + d

/-- Weekday with Monday = 0 (`datetime.date.weekday`); `0001-01-01` was a
Monday.  `(ord + 6) % 7 = (ord - 1) % 7` since the ordinal is ≥ 1. -/
def weekday (y m d : ℕ) : ℕ := (toordinal y m d + 6) % 7

/-- `calendar.Calendar(firstweekday=calendar.SUNDAY).monthdayscalendar
(year, month)`: the month's days as full weeks starting on Sunday, `0`
for padding cells.  The number of weeks is exactly what is needed to
cover the leading padding plus the days of the month. -/
def monthdayscalendar (y m : ℕ) : List (List ℕ) :=
  let lead := (weekday y m 1 + 1) % 7
  let n := days_in_month y m
  let weeks := (lead + n + 6) / 7
  (List.range weeks).map fun w => (List.range 7).map fun c =>
    let j := w * 7 + c
    if lead ≤ j ∧ j < lead + n then j - lead + 1 else 0

/-- The day cells drawn by `draw_calendar_grid` for `(year, month)`, in
drawing order (one bordered cell per entry of `monthdayscalendar`, row
by row; a day number is drawn iff the entry is nonzero). -/
def grid_cells (y m : ℕ) : List ℕ := (monthdayscalendar y m).flatten

/-! ## Destinations and the assembler (`create_calendar_pdf`) -/

/-- `f"page_{year}_{month}"`. -/
def destName (y m : ℕ) : String :=
  "page_" ++ toString y ++ "_" ++ toString m

/-- The `(year, month)` pairs of the nested `for year in YEARS: for month
in MONTHS:` loops, in loop order (year-major, month-minor, ascending). -/
def configPairs : List (ℕ × ℕ) :=
  YEARS.flatMap fun y => MONTHS.map fun m => (y, m)

/-- The `page_destinations` dictionary: every configured pair mapped to
its destination name, populated before any page is drawn. -/
def page_destinations : List ((ℕ × ℕ) × String) :=
  configPairs.map fun p => (p, destName p.1 p.2)

/-- One step of `create_calendar_pdf`: registering a destination name for
a `(year, month)` pair, drawing the cover, or drawing a month page. -/
inductive AsmStep where
  | register (ym : ℕ × ℕ) (dname : String)
  | drawCover
  | drawMonth (ym : ℕ × ℕ)
deriving DecidableEq, Repr

/-- Whether a step is a destination registration. -/
def AsmStep.isRegister : AsmStep → Bool
  | .register _ _ => true
  | _ => false

/-- The steps of `create_calendar_pdf` in program order: first the
destination-registration loop over all pairs, then the cover page, then
one month page per pair. -/
def create_calendar_steps : List AsmStep :=
  (configPairs.map fun p => AsmStep.register p (destName p.1 p.2))
    ++ AsmStep.drawCover :: configPairs.map AsmStep.drawMonth

/-- A page of the produced document. -/
inductive Page where
  | cover
  | monthPage (y m : ℕ)
deriving DecidableEq, Repr

/-- The pages written by `create_calendar_pdf`, in `showPage` order:
cover first, then one page per configured pair in loop order. -/
def calendar_pages : List Page :=
  Page.cover :: configPairs.map fun p => Page.monthPage p.1 p.2

/-- The `page_index` counter printed at the end (`Total pages:`): starts
at 0, incremented once after the cover and once per month page. -/
def reported_page_count : ℕ :=
  calendar_pages.foldl (fun acc _ => acc + 1) 0

/-! ## Navigation tabs (`draw_navigation_tabs`) -/

/-- `PAGE_HEIGHT` = 792.0 pt (11 in, US Letter). -/
def PAGE_HEIGHT : Dy := ⟨792, 0⟩

/-- `uniform_tab_height = PAGE_HEIGHT / total_tabs` with
`total_tabs = 17`: a correctly rounded binary64 division. -/
def uniform_tab_height : Dy := rndRat 792 17

/-- `total_tabs = 17  # 5 year tabs + 12 month tabs`. -/
def total_tabs : ℕ := 17

/-- `y_pos = PAGE_HEIGHT - ((k + 1) * uniform_tab_height)` for the tab in
stack position `k` (0 = top), evaluated in binary64: rounded product,
then rounded difference. -/
def tab_bottom (k : ℕ) : Dy :=
  rndDy (dySub PAGE_HEIGHT (rndDy (dyMul ⟨(k : ℤ) + 1, 0⟩ uniform_tab_height)))

/-- `int(c * 0.4)`: one channel of the dimmed fill of a non-current month
tab — binary64 product with `0.4`, truncated (the value is nonnegative). -/
def dim_channel (c : ℕ) : ℕ :=
  (dyFloor (rndDy (dyMul ⟨(c : ℤ), 0⟩ lit04))).toNat

/-- Per-channel dimming of a color. -/
def dim_rgb (c : RGB) : RGB :=
  (dim_channel c.1, dim_channel c.2.1, dim_channel c.2.2)

/-- A rendered navigation tab: its rectangle's bottom edge and height (as
the binary64 values passed to `canvas.rect` and `linkRect`), fill color,
label, and the destination name the clickable region links to (`none`
would mean the dictionary lookup failed). -/
structure TabR where
  bottom : Dy
  height : Dy
  fill : RGB
  label : String
  dest : Option String
deriving DecidableEq, Repr

/-- `draw_navigation_tabs(c, year, month, page_destinations)`: five year
tabs (stack positions 0–4, filled with the year base colors, linking to
`(yr, 1)`) followed by twelve month tabs (stack positions 5–16, filled
with the month's shade — dimmed unless it is the displayed month — and
linking to `(year, mn)`). -/
def draw_navigation_tabs (year month : ℕ) : List TabR :=
  (YEARS.enum.map fun iy =>
    { bottom := tab_bottom iy.1
      height := uniform_tab_height
      fill := YEAR_BASE_COLORS.getD iy.1 (0, 0, 0)
      label := toString iy.2
      dest := List.lookup (iy.2, 1) page_destinations : TabR })
    ++ MONTHS.enum.map fun im =>
      { bottom := tab_bottom (5 + im.1)
        height := uniform_tab_height
        fill :=
          if im.2 = month then (YEAR_MONTH_COLORS year).getD im.1 (0, 0, 0)
          else dim_rgb ((YEAR_MONTH_COLORS year).getD im.1 (0, 0, 0))
        label := MONTH_NAMES.getD im.1 ""
        dest := List.lookup (year, im.2) page_destinations }

/-- The destination keys looked up while drawing the tabs of page
`(year, month)`: `(yr, 1)` for each year tab and `(year, mn)` for each
month tab. -/
def tab_link_keys (year : ℕ) : List (ℕ × ℕ) :=
  YEARS.map (fun yr => (yr, 1)) ++ MONTHS.map fun mn => (year, mn)

/-! ## Idealized (exact-arithmetic) tab geometry, for comparison -/

/-- The tab height the spec describes: page height / 17, as an exact
rational. -/
def exact_tab_height : ℚ := 792 / 17

/-- Exact-arithmetic bottom edge of the tab in stack position `k`. -/
def exact_tab_bottom (k : ℕ) : ℚ := 792 - (k + 1) * exact_tab_height

/-! ## Exact-arithmetic shade formula (the spec's reading), for
comparison with the binary64 computation -/

/-- The shade-channel formula read as exact real arithmetic:
`min(255, max(30, ⌊c * (0.5 + (i / (N - 1)) * 1.1)⌋))`. -/
def exact_shade_channel (c num_shades i : ℕ) : ℤ :=
  min 255 (max 30 ⌊(c : ℚ) * (1 / 2 + ((i : ℚ) / ((num_shades : ℚ) - 1)) * (11 / 10))⌋)

/-! ## Parameterized assembler (for the determinism claim) -/

/-- The configuration surface fixed at build time. -/
structure CalendarConfig where
  years : List ℕ
  monthNames : List String
  baseColors : List RGB
  pageWidth : Dy
  pageHeight : Dy
  margin : Dy
  tabWidth : Dy
deriving DecidableEq

/-- The concrete configuration of `generate_calendar.py` (margin
`0.15 * inch` and tab width `0.5 * inch` as binary64 values). -/
def theConfig : CalendarConfig :=
  { years := YEARS
    monthNames := MONTH_NAMES
    baseColors := YEAR_BASE_COLORS
    pageWidth := ⟨612, 0⟩
    pageHeight := PAGE_HEIGHT
    margin := rndDy (dyMul (rndRat 3 20) ⟨72, 0⟩)
    tabWidth := ⟨36, 0⟩ }

/-- Everything `create_calendar_pdf` derives from a configuration that
the idempotence claim talks about: the destination map, the page list,
the reported page count, and the page position of every `(year, month)`
pair (cover = position 0). -/
def runCalendar (cfg : CalendarConfig) :
    List ((ℕ × ℕ) × String) × List Page × ℕ × List ((ℕ × ℕ) × ℕ) :=
  let pairs := cfg.years.flatMap fun y => MONTHS.map fun m => (y, m)
  (pairs.map fun p => (p, destName p.1 p.2),
   Page.cover :: pairs.map fun p => Page.monthPage p.1 p.2,
   (Page.cover :: pairs.map fun p => Page.monthPage p.1 p.2).foldl (fun acc _ => acc + 1) 0,
   pairs.enum.map fun ip => (ip.2, ip.1 + 1))

/-- The dimming formula read as exact real arithmetic,
`⌊channel * 0.4⌋ = 2 * channel / 5` (natural division). -/
def dim_rgb_exact (c : RGB) : RGB :=
  (2 * c.1 / 5, 2 * c.2.1 / 5, 2 * c.2.2 / 5)

/-- Placeholder tab for out-of-range indexing in statements. -/
def defaultTab : TabR :=
  { bottom := ⟨0, 0⟩, height := ⟨0, 0⟩, fill := (0, 0, 0), label := "", dest := none }

/-! ## Mathematical (proof-side) round-to-nearest-even -/

/-- Round a rational to the nearest integer, ties to even. -/
def rneInt (x : ℚ) : ℤ :=
  if Int.fract x < 1 / 2 then ⌊x⌋
  else if 1 / 2 < Int.fract x then ⌊x⌋ + 1
  else if 2 ∣ ⌊x⌋ then ⌊x⌋ else ⌊x⌋ + 1

/-- Round a positive rational to the nearest binary64 value (53-bit
mantissa, unbounded exponent — correct for the normal range), nearest,
ties to even.  The computable `rndRat` and `rndDy` are proved to agree
with this on positive values. -/
def rneQ (x : ℚ) : ℚ :=
  (rneInt (x * 2 ^ (52 - Int.log 2 x)) : ℚ) * 2 ^ (Int.log 2 x - 52)

/-! ## Theorems -/

set_option maxRecDepth 100000

/-- C1 (amended): for every configured `(year, month)` the grid built from
`monthdayscalendar` has rows of exactly 7 cells, but only as many rows as
the month needs (5 or 6 for the configured range — the layout merely
reserves vertical space for 6 rows); the number of non-empty cells equals
the number of days in that month (28, 29, 30 or 31, leap-year-aware for
February). -/
theorem calendar_grid_shape : ∀ p ∈ configPairs,
    (∀ w ∈ monthdayscalendar p.1 p.2, w.length = 7) ∧
    ((monthdayscalendar p.1 p.2).length = 5 ∨ (monthdayscalendar p.1 p.2).length = 6) ∧
    (grid_cells p.1 p.2).countP (fun d => d != 0) = days_in_month p.1 p.2 ∧
    days_in_month p.1 p.2 ∈ [28, 29, 30, 31] ∧
    (p.2 = 2 → days_in_month p.1 p.2 = if isLeap p.1 then 29 else 28) := by
  decide

/-- Witness for `calendar_grid_shape` at the configured pair (2020, 2)
(a leap-year February). -/
theorem calendar_grid_shape_witness :
    (∀ w ∈ monthdayscalendar 2020 2, w.length = 7) ∧
    ((monthdayscalendar 2020 2).length = 5 ∨ (monthdayscalendar 2020 2).length = 6) ∧
    (grid_cells 2020 2).countP (fun d => d != 0) = days_in_month 2020 2 ∧
    days_in_month 2020 2 ∈ [28, 29, 30, 31] ∧
    ((2020, 2).2 = 2 → days_in_month 2020 2 = if isLeap 2020 then 29 else 28) :=
  calendar_grid_shape (2020, 2) (by decide)

/-- C1 counterexample: the claim says every configured month's grid has
exactly 42 cells, but for January 2020 the renderer draws only 5 weeks,
i.e. 35 cells, not 42. -/
theorem calendar_grid_not_42 :
    (2020, 1) ∈ configPairs ∧
    (grid_cells 2020 1).length = 35 ∧ (grid_cells 2020 1).length ≠ 42 := by
  decide

/-- C5 (confirmed): the document is the cover page followed by exactly one
page per configured `(year, month)` pair in year-major, month-minor
ascending order; the total page count is `1 + 12 * 5 = 61`, and the count
printed on the console (`page_index`) equals that total. -/
theorem pages_order_and_count :
    calendar_pages = Page.cover :: configPairs.map (fun p => Page.monthPage p.1 p.2) ∧
    configPairs.length = 60 ∧
    (∀ i < 59, (configPairs.getD i (0, 0)).1 < (configPairs.getD (i + 1) (0, 0)).1 ∨
      ((configPairs.getD i (0, 0)).1 = (configPairs.getD (i + 1) (0, 0)).1 ∧
        (configPairs.getD i (0, 0)).2 < (configPairs.getD (i + 1) (0, 0)).2)) ∧
    (∀ p ∈ configPairs, calendar_pages.count (Page.monthPage p.1 p.2) = 1) ∧
    calendar_pages.length = 1 + 12 * YEARS.length ∧
    calendar_pages.length = 61 ∧
    reported_page_count = calendar_pages.length ∧
    reported_page_count = 61 := by
  decide

/-- Witness for `pages_order_and_count` at the configured pair (2024, 12)
and at the first pair of consecutive pages. -/
theorem pages_order_and_count_witness :
    calendar_pages.count (Page.monthPage 2024 12) = 1 ∧
    ((configPairs.getD 0 (0, 0)).1 < (configPairs.getD 1 (0, 0)).1 ∨
      ((configPairs.getD 0 (0, 0)).1 = (configPairs.getD 1 (0, 0)).1 ∧
        (configPairs.getD 0 (0, 0)).2 < (configPairs.getD 1 (0, 0)).2)) :=
  ⟨pages_order_and_count.2.2.2.1 (2024, 12) (by decide),
   pages_order_and_count.2.2.1 0 (by decide)⟩

/-- C9 (confirmed): the generator is deterministic — everything it emits
is a pure function of the configuration, so two runs with equal
configurations agree on the destination map, the page list, the reported
page count and the page positions; and at the concrete configuration this
output coincides with the globals used throughout this file. -/
theorem generator_deterministic (c1 c2 : CalendarConfig) (h : c1 = c2) :
    runCalendar c1 = runCalendar c2 ∧
    (runCalendar theConfig).1 = page_destinations ∧
    (runCalendar theConfig).2.1 = calendar_pages ∧
    (runCalendar theConfig).2.2.1 = reported_page_count := by
  subst h
  exact ⟨rfl, rfl, rfl, rfl⟩

/-- Witness for `generator_deterministic` at the concrete configuration. -/
theorem generator_deterministic_witness :
    runCalendar theConfig = runCalendar theConfig ∧
    (runCalendar theConfig).1 = page_destinations ∧
    (runCalendar theConfig).2.1 = calendar_pages ∧
    (runCalendar theConfig).2.2.1 = reported_page_count :=
  generator_deterministic theConfig theConfig rfl

/-- Every configured pair finds its destination name in the registry. -/
theorem lookup_page_destinations :
    ∀ p ∈ configPairs, List.lookup p page_destinations = some (destName p.1 p.2) := by
  decide

/-- The sixty registered destination names are pairwise distinct. -/
theorem destNames_nodup : (configPairs.map fun p => destName p.1 p.2).Nodup := by
  decide

/-- A configured year paired with a configured month is a configured pair. -/
theorem year_month_mem {y mn : ℕ} (hy : y ∈ YEARS) (hm : mn ∈ MONTHS) :
    (y, mn) ∈ configPairs :=
  List.mem_flatMap.mpr ⟨y, hy, List.mem_map_of_mem _ hm⟩

/-- The year of a configured pair is a configured year. -/
theorem fst_mem_YEARS {p : ℕ × ℕ} (hp : p ∈ configPairs) : p.1 ∈ YEARS := by
  obtain ⟨y, hy, hm⟩ := List.mem_flatMap.mp hp
  obtain ⟨m, _, rfl⟩ := List.mem_map.mp hm
  exact hy

/-- January is a configured month. -/
theorem one_mem_MONTHS : (1 : ℕ) ∈ MONTHS := by decide

/-- C3 (confirmed): the assembler registers a destination identifier for
every configured `(year, month)` pair before any page is drawn (all
registration steps precede the cover and month-page steps), the
pair-to-identifier mapping is injective, and every registry lookup a tab
performs (`(yr, 1)` for year tabs, `(year, mn)` for month tabs) succeeds,
so the never-registered failure branch of `linkRect` is unreachable. -/
theorem destinations_preregistered :
    (∀ p ∈ configPairs, List.lookup p page_destinations = some (destName p.1 p.2)) ∧
    (∀ p ∈ configPairs, ∀ q ∈ configPairs, destName p.1 p.2 = destName q.1 q.2 → p = q) ∧
    create_calendar_steps =
      (configPairs.map fun p => AsmStep.register p (destName p.1 p.2))
        ++ AsmStep.drawCover :: configPairs.map AsmStep.drawMonth ∧
    (∀ s ∈ create_calendar_steps.take configPairs.length, s.isRegister = true) ∧
    (∀ s ∈ create_calendar_steps.drop configPairs.length, s.isRegister = false) ∧
    (∀ p ∈ configPairs,
      AsmStep.register p (destName p.1 p.2) ∈ create_calendar_steps.take configPairs.length) ∧
    (∀ p ∈ configPairs, ∀ k ∈ tab_link_keys p.1,
      (List.lookup k page_destinations).isSome = true) := by
  have hlen : (configPairs.map fun p => AsmStep.register p (destName p.1 p.2)).length
      = configPairs.length := List.length_map _ _
  have htake : create_calendar_steps.take configPairs.length
      = configPairs.map fun p => AsmStep.register p (destName p.1 p.2) :=
    List.take_left' hlen
  have hdrop : create_calendar_steps.drop configPairs.length
      = AsmStep.drawCover :: configPairs.map AsmStep.drawMonth :=
    List.drop_left' hlen
  refine ⟨lookup_page_destinations, ?_, rfl, ?_, ?_, ?_, ?_⟩
  · intro p hp q hq h
    exact List.inj_on_of_nodup_map destNames_nodup hp hq h
  · intro s hs
    rw [htake] at hs
    obtain ⟨p, _, rfl⟩ := List.mem_map.mp hs
    rfl
  · intro s hs
    rw [hdrop] at hs
    cases hs with
    | head => rfl
    | tail _ h =>
      obtain ⟨p, _, rfl⟩ := List.mem_map.mp h
      rfl
  · intro p hp
    rw [htake]
    exact List.mem_map_of_mem _ hp
  · intro p hp k hk
    rcases List.mem_append.mp hk with h | h
    · obtain ⟨yr, hyr, rfl⟩ := List.mem_map.mp h
      rw [lookup_page_destinations _ (year_month_mem hyr one_mem_MONTHS)]
      rfl
    · obtain ⟨mn, hmn, rfl⟩ := List.mem_map.mp h
      rw [lookup_page_destinations _ (year_month_mem (fst_mem_YEARS hp) hmn)]
      rfl

/-- Witness for `destinations_preregistered`: on the (2023, 5) page the
year-tab lookup for (2020, 1) succeeds. -/
theorem destinations_preregistered_witness :
    (List.lookup ((2020 : ℕ), (1 : ℕ)) page_destinations).isSome = true :=
  destinations_preregistered.2.2.2.2.2.2 (2023, 5) (by decide) (2020, 1) (by decide)

/-- The first five rendered tabs are exactly the year tabs. -/
theorem draw_navigation_tabs_take (y m : ℕ) :
    (draw_navigation_tabs y m).take 5 = YEARS.enum.map (fun iy =>
      { bottom := tab_bottom iy.1
        height := uniform_tab_height
        fill := YEAR_BASE_COLORS.getD iy.1 (0, 0, 0)
        label := toString iy.2
        dest := List.lookup (iy.2, 1) page_destinations : TabR }) :=
  List.take_left' (by rw [List.length_map, List.enum_length]; rfl)

/-- The remaining twelve rendered tabs are exactly the month tabs. -/
theorem draw_navigation_tabs_drop (y m : ℕ) :
    (draw_navigation_tabs y m).drop 5 = MONTHS.enum.map (fun im =>
      { bottom := tab_bottom (5 + im.1)
        height := uniform_tab_height
        fill :=
          if im.2 = m then (YEAR_MONTH_COLORS y).getD im.1 (0, 0, 0)
          else dim_rgb ((YEAR_MONTH_COLORS y).getD im.1 (0, 0, 0))
        label := MONTH_NAMES.getD im.1 ""
        dest := List.lookup (y, im.2) page_destinations : TabR }) :=
  List.drop_left' (by rw [List.length_map, List.enum_length]; rfl)

/-- C4 (confirmed): on every configured month page, each year tab links to
the destination registered for `(that year, 1)` and each month tab links
to the destination registered for `(displayed year, that month)`. -/
theorem tab_links_resolve : ∀ p ∈ configPairs,
    ((draw_navigation_tabs p.1 p.2).take 5).map (fun t => t.dest)
      = YEARS.map (fun yr => some (destName yr 1)) ∧
    ((draw_navigation_tabs p.1 p.2).drop 5).map (fun t => t.dest)
      = MONTHS.map (fun mn => some (destName p.1 mn)) := by
  intro p hp
  constructor
  · rw [draw_navigation_tabs_take, List.map_map]
    apply List.ext_getElem
    · rw [List.length_map, List.enum_length]
      rfl
    · intro i h1 h2
      rw [List.getElem_map, List.getElem_map, List.getElem_enum]
      have hmem : (YEARS[i], (1 : ℕ)) ∈ configPairs :=
        year_month_mem (List.getElem_mem _) one_mem_MONTHS
      exact lookup_page_destinations _ hmem
  · rw [draw_navigation_tabs_drop, List.map_map]
    apply List.ext_getElem
    · rw [List.length_map, List.enum_length]
      rfl
    · intro i h1 h2
      rw [List.getElem_map, List.getElem_map, List.getElem_enum]
      have hmem : (p.1, MONTHS[i]) ∈ configPairs :=
        year_month_mem (fst_mem_YEARS hp) (List.getElem_mem _)
      exact lookup_page_destinations _ hmem

/-- Witness for `tab_links_resolve` at the configured page (2022, 7). -/
theorem tab_links_resolve_witness :
    ((draw_navigation_tabs 2022 7).take 5).map (fun t => t.dest)
      = YEARS.map (fun yr => some (destName yr 1)) ∧
    ((draw_navigation_tabs 2022 7).drop 5).map (fun t => t.dest)
      = MONTHS.map (fun mn => some (destName 2022 mn)) :=
  tab_links_resolve (2022, 7) (by decide)

/-- For every 8-bit channel value, the binary64 computation `int(c * 0.4)`
agrees with the exact formula `⌊c * 2/5⌋ = 2c / 5`. -/
theorem dim_channel_eq : ∀ c < 256, dim_channel c = 2 * c / 5 := by
  decide

/-- Clamped shade channels always lie in `[30, 255]`. -/
theorem shade_channel_bounds (c N i : ℕ) :
    30 ≤ shade_channel c N i ∧ shade_channel c N i ≤ 255 := by
  unfold shade_channel clamp_channel
  have h1 : (30 : ℤ) ≤ min 255 (max 30 (dyFloor (rndDy (dyMul ⟨(c : ℤ), 0⟩ (shade_factor N i))))) :=
    le_min (by norm_num) (le_max_left _ _)
  have h2 : min 255 (max 30 (dyFloor (rndDy (dyMul ⟨(c : ℤ), 0⟩ (shade_factor N i))))) ≤ 255 :=
    min_le_left _ _
  omega

/-- Dimming a color whose channels are 8-bit agrees with the exact
`⌊channel * 0.4⌋` formula on every channel. -/
theorem dim_rgb_eq_exact {c : RGB} (h1 : c.1 ≤ 255) (h2 : c.2.1 ≤ 255)
    (h3 : c.2.2 ≤ 255) : dim_rgb c = dim_rgb_exact c := by
  unfold dim_rgb dim_rgb_exact
  rw [dim_channel_eq c.1 (by omega), dim_channel_eq c.2.1 (by omega),
    dim_channel_eq c.2.2 (by omega)]

/-- The palette of a year is the mapped list of clamped shade channels of
that year's base color (12 shades). -/
theorem YEAR_MONTH_COLORS_eq (y : ℕ) :
    YEAR_MONTH_COLORS y = (List.range 12).map (fun i =>
      (shade_channel (YEAR_BASE_COLORS.getD (YEARS.indexOf y) (0, 0, 0)).1 12 i,
       shade_channel (YEAR_BASE_COLORS.getD (YEARS.indexOf y) (0, 0, 0)).2.1 12 i,
       shade_channel (YEAR_BASE_COLORS.getD (YEARS.indexOf y) (0, 0, 0)).2.2 12 i)) := rfl

/-- A year's palette has twelve entries. -/
theorem YEAR_MONTH_COLORS_length (y : ℕ) : (YEAR_MONTH_COLORS y).length = 12 := by
  rw [YEAR_MONTH_COLORS_eq, List.length_map, List.length_range]

/-- The `i`-th palette entry, as shade channels of the base color. -/
theorem YEAR_MONTH_COLORS_getElem (y i : ℕ) (h : i < (YEAR_MONTH_COLORS y).length) :
    (YEAR_MONTH_COLORS y)[i] =
      (shade_channel (YEAR_BASE_COLORS.getD (YEARS.indexOf y) (0, 0, 0)).1 12 i,
       shade_channel (YEAR_BASE_COLORS.getD (YEARS.indexOf y) (0, 0, 0)).2.1 12 i,
       shade_channel (YEAR_BASE_COLORS.getD (YEARS.indexOf y) (0, 0, 0)).2.2 12 i) := by
  have h' : i < 12 := by rw [YEAR_MONTH_COLORS_length] at h; exact h
  simp only [YEAR_MONTH_COLORS_eq, List.getElem_map, List.getElem_range]

/-- C7 (confirmed): on each configured month page, the tab of the
displayed month is filled with exactly its palette shade (channels
unchanged), and every other month tab is filled with the per-channel
integer truncation `⌊shade channel × 0.4⌋`. -/
theorem month_tab_fill : ∀ p ∈ configPairs,
    ((draw_navigation_tabs p.1 p.2).drop 5).map (fun t => t.fill)
      = (YEAR_MONTH_COLORS p.1).enum.map
          (fun ic => if ic.1 + 1 = p.2 then ic.2 else dim_rgb_exact ic.2) := by
  intro p hp
  rw [draw_navigation_tabs_drop, List.map_map]
  apply List.ext_getElem
  · rw [List.length_map, List.enum_length, List.length_map, List.enum_length,
      YEAR_MONTH_COLORS_length]
    rfl
  · intro i h1 h2
    rw [List.getElem_map, List.getElem_map, List.getElem_enum, List.getElem_enum]
    have hi12 : i < 12 := by
      rw [List.length_map, List.enum_length, YEAR_MONTH_COLORS_length] at h2
      exact h2
    have hpal : i < (YEAR_MONTH_COLORS p.1).length := by
      rw [YEAR_MONTH_COLORS_length]; exact hi12
    have hiM : i < MONTHS.length := by
      simp only [MONTHS, List.length_range']
      exact hi12
    have hMi : MONTHS[i] = 1 + i := by
      simp [MONTHS, List.getElem_range']
    have hgetD : (YEAR_MONTH_COLORS p.1).getD i (0, 0, 0) = (YEAR_MONTH_COLORS p.1)[i] :=
      List.getD_eq_getElem _ _ hpal
    simp only [Function.comp_apply, hMi, hgetD, Nat.add_comm 1 i]
    by_cases hc : i + 1 = p.2
    · rw [if_pos hc, if_pos hc]
    · rw [if_neg hc, if_neg hc]
      apply dim_rgb_eq_exact
      · rw [YEAR_MONTH_COLORS_getElem _ _ hpal]
        exact (shade_channel_bounds _ _ _).2
      · rw [YEAR_MONTH_COLORS_getElem _ _ hpal]
        exact (shade_channel_bounds _ _ _).2
      · rw [YEAR_MONTH_COLORS_getElem _ _ hpal]
        exact (shade_channel_bounds _ _ _).2

/-- Witness for `month_tab_fill` at the configured page (2021, 3). -/
theorem month_tab_fill_witness :
    ((draw_navigation_tabs 2021 3).drop 5).map (fun t => t.fill)
      = (YEAR_MONTH_COLORS 2021).enum.map
          (fun ic => if ic.1 + 1 = 3 then ic.2 else dim_rgb_exact ic.2) :=
  month_tab_fill (2021, 3) (by decide)

/-! ## Semantics of the dyadic comparisons -/

theorem den_dyAdd (a b : Dy) : den (dyAdd a b) = den a + den b := by
  unfold dyAdd den
  split
  · next h =>
    push_cast
    have he : ((b.e - a.e).toNat : ℤ) = b.e - a.e := Int.toNat_of_nonneg (by omega)
    rw [add_mul]
    congr 1
    rw [mul_assoc, ← zpow_natCast (2 : ℚ) (b.e - a.e).toNat, he, ← zpow_add₀ (by norm_num : (2:ℚ) ≠ 0)]
    ring_nf
  · next h =>
    push_cast
    have he : ((a.e - b.e).toNat : ℤ) = a.e - b.e := Int.toNat_of_nonneg (by omega)
    rw [add_mul]
    congr 1
    rw [mul_assoc, ← zpow_natCast (2 : ℚ) (a.e - b.e).toNat, he, ← zpow_add₀ (by norm_num : (2:ℚ) ≠ 0)]
    ring_nf

theorem den_neg (b : Dy) : den ⟨-b.m, b.e⟩ = -den b := by
  unfold den
  push_cast
  ring

theorem den_dySub (a b : Dy) : den (dySub a b) = den a - den b := by
  unfold dySub
  rw [den_dyAdd, den_neg]
  ring

theorem den_dyabs (a : Dy) : den (dyabs a) = |den a| := by
  unfold dyabs den
  rw [abs_mul, abs_of_pos (zpow_pos (by norm_num : (0:ℚ) < 2) a.e)]
  push_cast
  rfl

theorem den_nonneg_iff (a : Dy) : 0 ≤ den a ↔ 0 ≤ a.m := by
  unfold den
  rw [mul_nonneg_iff_of_pos_right (zpow_pos (by norm_num : (0:ℚ) < 2) a.e)]
  exact_mod_cast Iff.rfl

theorem den_eq_zero_iff (a : Dy) : den a = 0 ↔ a.m = 0 := by
  unfold den
  constructor
  · intro h
    rcases mul_eq_zero.mp h with h | h
    · exact_mod_cast h
    · exact absurd h (zpow_ne_zero _ (by norm_num))
  · intro h
    rw [h]
    push_cast
    ring

theorem den_pos_iff (a : Dy) : 0 < den a ↔ 0 < a.m := by
  unfold den
  rw [mul_pos_iff_of_pos_right (zpow_pos (by norm_num : (0:ℚ) < 2) a.e)]
  exact_mod_cast Iff.rfl

theorem dyle_iff (a b : Dy) : dyle a b = true ↔ den a ≤ den b := by
  unfold dyle
  rw [decide_eq_true_iff]
  rw [← den_nonneg_iff, den_dySub, sub_nonneg]

theorem dyeq_iff (a b : Dy) : dyeq a b = true ↔ den a = den b := by
  unfold dyeq
  rw [decide_eq_true_iff]
  rw [← den_eq_zero_iff, den_dySub, sub_eq_zero, eq_comm]

theorem den_one_neg40 : den ⟨1, -40⟩ = 1 / 2 ^ 40 := by
  unfold den
  rw [show ((-40 : ℤ)) = -((40 : ℕ) : ℤ) by norm_num, zpow_neg, zpow_natCast]
  norm_num

example : ⌊(63:ℚ)⌋ = 63 := by norm_num

/-- C10 (confirmed): the 0.4 dimming of non-current month tabs is not
re-clamped — a palette channel in `[30, 255]` dims into `[12, 102]`, so a
dimmed tab channel can fall below the palette's minimum of 30; on the
(2020, 2) page the dimmed January tab is `(27, 13, 20)`, whose green
channel 13 is below 30. -/
theorem dimmed_not_reclamped :
    (∀ ch, 30 ≤ ch → ch ≤ 255 → 12 ≤ dim_channel ch ∧ dim_channel ch ≤ 102) ∧
    ((draw_navigation_tabs 2020 2).getD 5 defaultTab).fill = (27, 13, 20) ∧
    ((draw_navigation_tabs 2020 2).getD 5 defaultTab).fill.2.1 < 30 := by
  refine ⟨?_, by decide, by decide⟩
  intro ch h1 h2
  rw [dim_channel_eq ch (by omega)]
  omega

/-- Witness for `dimmed_not_reclamped` at channel value 30. -/
theorem dimmed_not_reclamped_witness :
    12 ≤ dim_channel 30 ∧ dim_channel 30 ≤ 102 :=
  dimmed_not_reclamped.1 30 (by decide) (by decide)

/-- C2 (amended): for every base color and every `N ≥ 2` the shade
generator returns exactly `N` colors; entry `i` is the binary64
evaluation of `c * (0.5 + (i/(N-1)) * 1.1)` truncated and clamped to
`[30, 255]` per channel; and for `N = 1` the code raises
`ZeroDivisionError` instead of defining the factor as `1.0`. -/
theorem shade_generator_contract (base : RGB) (N : ℕ) (hN : 2 ≤ N) :
    ∃ l, generate_month_shades base N = some l ∧ l.length = N ∧
      (∀ i, i < N → l.getD i (0, 0, 0) =
        (shade_channel base.1 N i, shade_channel base.2.1 N i,
         shade_channel base.2.2 N i)) ∧
      (∀ s ∈ l, (30 ≤ s.1 ∧ s.1 ≤ 255) ∧ (30 ≤ s.2.1 ∧ s.2.1 ≤ 255) ∧
        (30 ≤ s.2.2 ∧ s.2.2 ≤ 255)) ∧
      generate_month_shades base 1 = none := by
  have hne : N ≠ 1 := by omega
  refine ⟨_, by rw [generate_month_shades, if_neg hne], ?_, ?_, ?_, rfl⟩
  · rw [List.length_map, List.length_range]
  · intro i hi
    rw [List.getD_eq_getElem _ _ (by rw [List.length_map, List.length_range]; exact hi),
      List.getElem_map, List.getElem_range]
  · intro s hs
    obtain ⟨i, _, rfl⟩ := List.mem_map.mp hs
    exact ⟨⟨(shade_channel_bounds _ _ _).1, (shade_channel_bounds _ _ _).2⟩,
      ⟨(shade_channel_bounds _ _ _).1, (shade_channel_bounds _ _ _).2⟩,
      ⟨(shade_channel_bounds _ _ _).1, (shade_channel_bounds _ _ _).2⟩⟩

/-- Witness for `shade_generator_contract` at the 2020 base color and
`N = 12`. -/
theorem shade_generator_contract_witness :
    ∃ l, generate_month_shades (139, 69, 102) 12 = some l ∧ l.length = 12 ∧
      (∀ i, i < 12 → l.getD i (0, 0, 0) =
        (shade_channel 139 12 i, shade_channel 69 12 i, shade_channel 102 12 i)) ∧
      (∀ s ∈ l, (30 ≤ s.1 ∧ s.1 ≤ 255) ∧ (30 ≤ s.2.1 ∧ s.2.1 ≤ 255) ∧
        (30 ≤ s.2.2 ∧ s.2.2 ≤ 255)) ∧
      generate_month_shades (139, 69, 102) 1 = none :=
  shade_generator_contract (139, 69, 102) 12 (by decide)

/-- C2 counterexample: at the 2023 base color `#5A7A6A`, shade 2's red
channel is 62 in the code (binary64 factor just below 0.7) while the
claim's exact formula gives `⌊90 * 0.7⌋ = 63`; and at `N = 1` the code
raises `ZeroDivisionError` rather than using factor 1.0. -/
theorem shade_formula_mismatch :
    (((generate_month_shades (0x5A, 0x7A, 0x6A) 12).getD []).getD 2 (0, 0, 0)).1 = 62 ∧
    exact_shade_channel 0x5A 12 2 = 63 ∧
    ((((generate_month_shades (0x5A, 0x7A, 0x6A) 12).getD []).getD 2 (0, 0, 0)).1 : ℤ)
      ≠ exact_shade_channel 0x5A 12 2 ∧
    generate_month_shades (0x5A, 0x7A, 0x6A) 1 = none := by
  have hexact : exact_shade_channel 0x5A 12 2 = 63 := by
    unfold exact_shade_channel
    have hx : ((0x5A : ℕ) : ℚ) * (1 / 2 + ((2 : ℕ) : ℚ) / (((12 : ℕ) : ℚ) - 1) * (11 / 10))
        = 63 := by norm_num
    rw [hx]
    norm_num
  refine ⟨by decide, hexact, ?_, rfl⟩
  rw [hexact]
  have h62 : (((generate_month_shades (0x5A, 0x7A, 0x6A) 12).getD []).getD 2 (0, 0, 0)).1
      = 62 := by decide
  rw [h62]
  decide

/-- C8 counterexample: for the all-white base color and `N = 2` the last
generated shade is exactly `(255, 255, 255)` — fully white — so shades
are not always strictly between black and white. -/
theorem fully_white_shade :
    generate_month_shades (255, 255, 255) 2 = some [(127, 127, 127), (255, 255, 255)] ∧
    ((generate_month_shades (255, 255, 255) 2).getD []).getD 1 (0, 0, 0) = (255, 255, 255) := by
  decide

/-- C6 (amended): every tab on every configured month page has the same
height — the binary64 value of `792 / 17` — and the 17-tab stack runs
top-to-bottom in stack order; the bottom tab ends exactly at 0, and in the
code's double arithmetic consecutive tab boundaries (and the page top)
coincide only up to a rounding discrepancy of at most `2⁻⁴⁰` pt, while in
exact arithmetic the stack tiles the 792 pt page height exactly with no
gap, overlap or leftover. -/
theorem tabs_uniform_tiling :
    (∀ p ∈ configPairs, ∀ t ∈ draw_navigation_tabs p.1 p.2,
      t.height = uniform_tab_height) ∧
    den (tab_bottom 16) = 0 ∧
    (∀ k, k < 16 →
      |den (tab_bottom (k + 1)) + den uniform_tab_height - den (tab_bottom k)|
        ≤ 1 / 2 ^ 40) ∧
    |den (tab_bottom 0) + den uniform_tab_height - 792| ≤ 1 / 2 ^ 40 ∧
    (∀ k : ℕ, exact_tab_bottom (k + 1) + exact_tab_height = exact_tab_bottom k) ∧
    exact_tab_bottom 0 + exact_tab_height = 792 ∧
    exact_tab_bottom 16 = 0 ∧
    17 * exact_tab_height = 792 ∧
    total_tabs = YEARS.length + MONTHS.length := by
  refine ⟨?_, ?_, ?_, ?_, ?_, ?_, ?_, ?_, rfl⟩
  · intro p hp t ht
    rcases List.mem_append.mp ht with h | h
    · obtain ⟨iy, _, rfl⟩ := List.mem_map.mp h
      rfl
    · obtain ⟨im, _, rfl⟩ := List.mem_map.mp h
      rfl
  · have h0 : tab_bottom 16 = ⟨0, 0⟩ := by decide
    rw [h0]
    unfold den
    norm_num
  · have hb : ∀ k, k < 16 →
        dyle (dyabs (dySub (dyAdd (tab_bottom (k + 1)) uniform_tab_height) (tab_bottom k)))
          ⟨1, -40⟩ = true := by decide
    intro k hk
    have h := (dyle_iff _ _).mp (hb k hk)
    rw [den_dyabs, den_dySub, den_dyAdd, den_one_neg40] at h
    exact h
  · have hb : dyle (dyabs (dySub (dyAdd (tab_bottom 0) uniform_tab_height) ⟨792, 0⟩))
        ⟨1, -40⟩ = true := by decide
    have h := (dyle_iff _ _).mp hb
    rw [den_dyabs, den_dySub, den_dyAdd, den_one_neg40] at h
    have h792 : den ⟨792, 0⟩ = 792 := by unfold den; norm_num
    rw [h792] at h
    exact h
  · intro k
    unfold exact_tab_bottom exact_tab_height
    push_cast
    ring
  · unfold exact_tab_bottom exact_tab_height
    norm_num
  · unfold exact_tab_bottom exact_tab_height
    norm_num
  · unfold exact_tab_height
    norm_num

/-- Witness for `tabs_uniform_tiling`: the first month tab of page
(2020, 1) has the uniform height, and the boundary between stack
positions 0 and 1 is tight to within `2⁻⁴⁰`. -/
theorem tabs_uniform_tiling_witness :
    ((draw_navigation_tabs 2020 1).getD 5 defaultTab).height = uniform_tab_height ∧
    |den (tab_bottom 1) + den uniform_tab_height - den (tab_bottom 0)| ≤ 1 / 2 ^ 40 ∧
    exact_tab_bottom 1 + exact_tab_height = exact_tab_bottom 0 :=
  ⟨by decide,
   tabs_uniform_tiling.2.2.1 0 (by norm_num),
   tabs_uniform_tiling.2.2.2.2.1 0⟩

/-- C6 counterexample: the tab boundaries do not tile exactly — in the
code's double arithmetic the top of the tab in stack position 1 differs
from the bottom of the tab in position 0, and the uniform tab height is
not exactly `792 / 17`. -/
theorem tab_boundary_gap :
    den (tab_bottom 1) + den uniform_tab_height ≠ den (tab_bottom 0) ∧
    den uniform_tab_height ≠ 792 / 17 := by
  constructor
  · intro h
    have h2 : dyeq (dyAdd (tab_bottom 1) uniform_tab_height) (tab_bottom 0) = true := by
      rw [dyeq_iff, den_dyAdd]
      exact h
    have h3 : dyeq (dyAdd (tab_bottom 1) uniform_tab_height) (tab_bottom 0) = false := by
      decide
    rw [h2] at h3
    exact Bool.noConfusion h3
  · have hu : uniform_tab_height = ⟨6556711222201163, -47⟩ := by decide
    rw [hu]
    unfold den
    rw [show ((-47 : ℤ)) = -((47 : ℕ) : ℤ) by norm_num, zpow_neg, zpow_natCast]
    norm_num

/-! ## Correctness of the binary64 rounding implementation, and
monotonicity of the shade pipeline -/

theorem log2fuel_spec : ∀ fuel n : ℕ, 1 ≤ n → n ≤ fuel →
    2 ^ log2fuel fuel n ≤ n ∧ n < 2 ^ (log2fuel fuel n + 1) := by
  intro fuel
  induction fuel with
  | zero => intro n h1 h2; omega
  | succ f ih =>
    intro n h1 h2
    simp only [log2fuel]
    split
    · next hge =>
      have hle : n / 2 ≤ f := by omega
      have h1' : 1 ≤ n / 2 := by omega
      obtain ⟨hl, hr⟩ := ih (n / 2) h1' hle
      constructor
      · have : 2 * 2 ^ log2fuel f (n / 2) ≤ 2 * (n / 2) := by omega
        calc 2 ^ (log2fuel f (n / 2) + 1) = 2 * 2 ^ log2fuel f (n / 2) := by ring
          _ ≤ 2 * (n / 2) := by omega
          _ ≤ n := by omega
      · calc n ≤ 2 * (n / 2) + 1 := by omega
          _ < 2 * 2 ^ (log2fuel f (n / 2) + 1) := by omega
          _ = 2 ^ (log2fuel f (n / 2) + 1 + 1) := by ring
    · next hlt =>
      have hn : n = 1 := by omega
      subst hn
      norm_num

theorem log2N_spec (n : ℕ) (h : 1 ≤ n) :
    2 ^ log2N n ≤ n ∧ n < 2 ^ (log2N n + 1) :=
  log2fuel_spec n n h le_rfl

theorem rneInt_ge (x : ℚ) : ⌊x⌋ ≤ rneInt x := by
  unfold rneInt
  split_ifs <;> omega

theorem rneInt_le (x : ℚ) : rneInt x ≤ ⌊x⌋ + 1 := by
  unfold rneInt
  split_ifs <;> omega

theorem rneInt_mono {x y : ℚ} (h : x ≤ y) : rneInt x ≤ rneInt y := by
  rcases lt_or_ge ⌊x⌋ ⌊y⌋ with hf | hf
  · have h1 := rneInt_le x
    have h2 := rneInt_ge y
    omega
  · have hfe : ⌊x⌋ = ⌊y⌋ := le_antisymm (Int.floor_mono h) hf
    have hfr : Int.fract x ≤ Int.fract y := by
      rw [Int.fract, Int.fract, hfe]
      exact sub_le_sub_right h _
    unfold rneInt
    rw [hfe]
    split_ifs <;> first | omega | linarith

theorem rneQ_ge {x : ℚ} (hx : 0 < x) : (2 : ℚ) ^ Int.log 2 x ≤ rneQ x := by
  unfold rneQ
  set E := Int.log 2 x with hE
  have hpow : (0 : ℚ) < (2 : ℚ) ^ (52 - E) := zpow_pos (by norm_num) _
  have h1 : (2 : ℚ) ^ E ≤ x := by
    have := Int.zpow_log_le_self (b := 2) (by norm_num) hx
    push_cast at this
    exact this
  have h2 : ((2 ^ 52 : ℤ) : ℚ) ≤ x * (2 : ℚ) ^ (52 - E) := by
    have : (2 : ℚ) ^ E * (2 : ℚ) ^ (52 - E) ≤ x * (2 : ℚ) ^ (52 - E) :=
      mul_le_mul_of_nonneg_right h1 (le_of_lt hpow)
    calc ((2 ^ 52 : ℤ) : ℚ) = (2 : ℚ) ^ (52 : ℤ) := by norm_num
      _ = (2 : ℚ) ^ E * (2 : ℚ) ^ (52 - E) := by
          rw [← zpow_add₀ (by norm_num : (2 : ℚ) ≠ 0)]
          ring_nf
      _ ≤ x * (2 : ℚ) ^ (52 - E) := this
  have h3 : (2 ^ 52 : ℤ) ≤ rneInt (x * (2 : ℚ) ^ (52 - E)) := by
    have hfl : (2 ^ 52 : ℤ) ≤ ⌊x * (2 : ℚ) ^ (52 - E)⌋ := Int.le_floor.mpr h2
    have := rneInt_ge (x * (2 : ℚ) ^ (52 - E))
    omega
  calc (2 : ℚ) ^ E = ((2 ^ 52 : ℤ) : ℚ) * (2 : ℚ) ^ (E - 52) := by
        rw [show ((2 ^ 52 : ℤ) : ℚ) = (2 : ℚ) ^ (52 : ℤ) by norm_num,
          ← zpow_add₀ (by norm_num : (2 : ℚ) ≠ 0)]
        ring_nf
    _ ≤ (rneInt (x * (2 : ℚ) ^ (52 - E)) : ℚ) * (2 : ℚ) ^ (E - 52) := by
        apply mul_le_mul_of_nonneg_right _ (le_of_lt (zpow_pos (by norm_num) _))
        exact_mod_cast h3

theorem rneQ_le (x : ℚ) : rneQ x ≤ (2 : ℚ) ^ (Int.log 2 x + 1) := by
  unfold rneQ
  set E := Int.log 2 x with hE
  have hpow : (0 : ℚ) < (2 : ℚ) ^ (52 - E) := zpow_pos (by norm_num) _
  have h1 : x < (2 : ℚ) ^ (E + 1) := by
    have := Int.lt_zpow_succ_log_self (b := 2) (by norm_num) x
    push_cast at this
    exact this
  have h2 : x * (2 : ℚ) ^ (52 - E) < ((2 ^ 53 : ℤ) : ℚ) := by
    have : x * (2 : ℚ) ^ (52 - E) < (2 : ℚ) ^ (E + 1) * (2 : ℚ) ^ (52 - E) :=
      mul_lt_mul_of_pos_right h1 hpow
    calc x * (2 : ℚ) ^ (52 - E) < (2 : ℚ) ^ (E + 1) * (2 : ℚ) ^ (52 - E) := this
      _ = ((2 ^ 53 : ℤ) : ℚ) := by
          rw [← zpow_add₀ (by norm_num : (2 : ℚ) ≠ 0)]
          rw [show E + 1 + (52 - E) = (53 : ℤ) by ring]
          norm_num
  have h3 : rneInt (x * (2 : ℚ) ^ (52 - E)) ≤ 2 ^ 53 := by
    have hfl : ⌊x * (2 : ℚ) ^ (52 - E)⌋ < 2 ^ 53 := Int.floor_lt.mpr h2
    have := rneInt_le (x * (2 : ℚ) ^ (52 - E))
    omega
  calc (rneInt (x * (2 : ℚ) ^ (52 - E)) : ℚ) * (2 : ℚ) ^ (E - 52)
      ≤ ((2 ^ 53 : ℤ) : ℚ) * (2 : ℚ) ^ (E - 52) := by
        apply mul_le_mul_of_nonneg_right _ (le_of_lt (zpow_pos (by norm_num) _))
        exact_mod_cast h3
    _ = (2 : ℚ) ^ (E + 1) := by
        rw [show ((2 ^ 53 : ℤ) : ℚ) = (2 : ℚ) ^ (53 : ℤ) by norm_num,
          ← zpow_add₀ (by norm_num : (2 : ℚ) ≠ 0)]
        ring_nf

theorem rneQ_mono {x y : ℚ} (hx : 0 < x) (hxy : x ≤ y) : rneQ x ≤ rneQ y := by
  have hy : 0 < y := lt_of_lt_of_le hx hxy
  have hE : Int.log 2 x ≤ Int.log 2 y := Int.log_mono_right hx hxy
  rcases eq_or_lt_of_le hE with heq | hlt
  · unfold rneQ
    rw [← heq]
    apply mul_le_mul_of_nonneg_right _ (le_of_lt (zpow_pos (by norm_num) _))
    have : x * (2 : ℚ) ^ (52 - Int.log 2 x) ≤ y * (2 : ℚ) ^ (52 - Int.log 2 x) :=
      mul_le_mul_of_nonneg_right hxy (le_of_lt (zpow_pos (by norm_num) _))
    exact_mod_cast rneInt_mono this
  · calc rneQ x ≤ (2 : ℚ) ^ (Int.log 2 x + 1) := rneQ_le x
      _ ≤ (2 : ℚ) ^ Int.log 2 y := zpow_le_zpow_right₀ (by norm_num) (by omega)
      _ ≤ rneQ y := rneQ_ge hy

theorem rneInt_natDiv (N D : ℕ) (hD : 1 ≤ D) :
    rneInt ((N : ℚ) / (D : ℚ)) =
      if 2 * (N % D) < D then ((N / D : ℕ) : ℤ)
      else if D < 2 * (N % D) then ((N / D : ℕ) : ℤ) + 1
      else if (N / D) % 2 = 0 then ((N / D : ℕ) : ℤ) else ((N / D : ℕ) : ℤ) + 1 := by
  have hDQ : (0 : ℚ) < (D : ℚ) := by exact_mod_cast hD
  have hfl : ⌊(N : ℚ) / (D : ℚ)⌋ = ((N / D : ℕ) : ℤ) := by
    rw [show ((N : ℚ)) = (((N : ℤ) : ℚ)) by push_cast; rfl,
      Rat.floor_intCast_div_natCast]
    exact_mod_cast rfl
  have hmod : (D : ℚ) * ((N / D : ℕ) : ℚ) + ((N % D : ℕ) : ℚ) = (N : ℚ) := by
    exact_mod_cast congrArg (Nat.cast : ℕ → ℚ) (Nat.div_add_mod N D)
  have hfrac_lt : ((N % D : ℕ) : ℚ) / D < 1 := by
    rw [div_lt_one hDQ]
    exact_mod_cast Nat.mod_lt N hD
  have hfr : Int.fract ((N : ℚ) / D) = ((N % D : ℕ) : ℚ) / D := by
    have hx : (N : ℚ) / D = (((N / D : ℕ) : ℤ) : ℚ) + ((N % D : ℕ) : ℚ) / D := by
      have hcast : (((N / D : ℕ) : ℤ) : ℚ) = ((N / D : ℕ) : ℚ) := by
        push_cast
        rfl
      rw [hcast]
      field_simp
      linarith [hmod]
    rw [hx, Int.fract_int_add]
    exact Int.fract_eq_self.mpr ⟨by positivity, hfrac_lt⟩
  have hlt : (((N % D : ℕ) : ℚ) / D < 1 / 2) ↔ (2 * (N % D) < D) := by
    rw [div_lt_div_iff₀ hDQ (by norm_num : (0 : ℚ) < 2), one_mul,
      show ((N % D : ℕ) : ℚ) * 2 = ((2 * (N % D) : ℕ) : ℚ) by push_cast; ring]
    exact Nat.cast_lt
  have hgt : ((1 : ℚ) / 2 < ((N % D : ℕ) : ℚ) / D) ↔ (D < 2 * (N % D)) := by
    rw [div_lt_div_iff₀ (by norm_num : (0 : ℚ) < 2) hDQ, one_mul,
      show ((N % D : ℕ) : ℚ) * 2 = ((2 * (N % D) : ℕ) : ℚ) by push_cast; ring]
    exact Nat.cast_lt
  have heven : (2 ∣ ((N / D : ℕ) : ℤ)) ↔ ((N / D) % 2 = 0) := by omega
  unfold rneInt
  rw [hfr, hfl]
  simp only [hlt, hgt, heven]

theorem rneIntNat_cast (N D : ℕ) (hD : 1 ≤ D) :
    (rneIntNat N D : ℤ) = rneInt ((N : ℚ) / D) := by
  rw [rneInt_natDiv N D hD]
  unfold rneIntNat
  split_ifs <;> push_cast <;> ring

theorem pow2le_iff {k : ℤ} {n d : ℕ} (hn : 1 ≤ n) (hd : 1 ≤ d) :
    pow2le k n d = true ↔ (2 : ℚ) ^ k ≤ (n : ℚ) / d := by
  have hdQ : (0 : ℚ) < (d : ℚ) := by exact_mod_cast hd
  unfold pow2le
  split
  · next hk =>
    rw [decide_eq_true_iff, le_div_iff₀ hdQ]
    have hk2 : (2 : ℚ) ^ k = ((2 ^ k.toNat : ℕ) : ℚ) := by
      have h1 : (2 : ℚ) ^ k = (2 : ℚ) ^ (k.toNat : ℤ) := by
        congr 1
        omega
      rw [h1, zpow_natCast]
      push_cast
      rfl
    rw [hk2, show ((2 ^ k.toNat : ℕ) : ℚ) * (d : ℚ) = ((d * 2 ^ k.toNat : ℕ) : ℚ) by
      push_cast
      ring]
    exact Nat.cast_le.symm
  · next hk =>
    rw [decide_eq_true_iff]
    have hk' : (2 : ℚ) ^ k = 1 / ((2 ^ (-k).toNat : ℕ) : ℚ) := by
      have h1 : (2 : ℚ) ^ k = ((2 : ℚ) ^ ((-k).toNat : ℤ))⁻¹ := by
        rw [← zpow_neg]
        congr 1
        omega
      rw [h1, zpow_natCast, one_div]
      congr 1
      push_cast
      rfl
    rw [hk', div_le_div_iff₀ (by positivity) hdQ, one_mul]
    rw [show (n : ℚ) * ((2 ^ (-k).toNat : ℕ) : ℚ) = ((n * 2 ^ (-k).toNat : ℕ) : ℚ) by
      push_cast
      ring]
    exact Nat.cast_le.symm

theorem ratExp_binade {n d : ℕ} (hn : 1 ≤ n) (hd : 1 ≤ d) :
    (2 : ℚ) ^ ratExp n d ≤ (n : ℚ) / d ∧ (n : ℚ) / d < (2 : ℚ) ^ (ratExp n d + 1) := by
  have hdQ : (0 : ℚ) < (d : ℚ) := by exact_mod_cast hd
  obtain ⟨hn1, hn2⟩ := log2N_spec n hn
  obtain ⟨hd1, hd2⟩ := log2N_spec d hd
  have hn1Q : (2 : ℚ) ^ (log2N n : ℤ) ≤ (n : ℚ) := by
    rw [zpow_natCast]
    exact_mod_cast hn1
  have hn2Q : (n : ℚ) < (2 : ℚ) ^ ((log2N n : ℤ) + 1) := by
    rw [show ((log2N n : ℤ) + 1) = ((log2N n + 1 : ℕ) : ℤ) by push_cast; ring,
      zpow_natCast]
    exact_mod_cast hn2
  have hd1Q : (2 : ℚ) ^ (log2N d : ℤ) ≤ (d : ℚ) := by
    rw [zpow_natCast]
    exact_mod_cast hd1
  have hd2Q : (d : ℚ) < (2 : ℚ) ^ ((log2N d : ℤ) + 1) := by
    rw [show ((log2N d : ℤ) + 1) = ((log2N d + 1 : ℕ) : ℤ) by push_cast; ring,
      zpow_natCast]
    exact_mod_cast hd2
  unfold ratExp
  split
  · next hp =>
    refine ⟨(pow2le_iff hn hd).mp hp, ?_⟩
    rw [div_lt_iff₀ hdQ]
    calc (n : ℚ) < (2 : ℚ) ^ ((log2N n : ℤ) + 1) := hn2Q
      _ = (2 : ℚ) ^ ((log2N n : ℤ) - (log2N d : ℤ) + 1) * (2 : ℚ) ^ (log2N d : ℤ) := by
          rw [← zpow_add₀ (by norm_num : (2 : ℚ) ≠ 0)]
          ring_nf
      _ ≤ (2 : ℚ) ^ ((log2N n : ℤ) - (log2N d : ℤ) + 1) * (d : ℚ) :=
          mul_le_mul_of_nonneg_left hd1Q (le_of_lt (zpow_pos (by norm_num) _))
  · next hp =>
    constructor
    · rw [le_div_iff₀ hdQ]
      have hlt : (2 : ℚ) ^ ((log2N n : ℤ) - (log2N d : ℤ) - 1) * (d : ℚ)
          < (2 : ℚ) ^ (log2N n : ℤ) := by
        calc (2 : ℚ) ^ ((log2N n : ℤ) - (log2N d : ℤ) - 1) * (d : ℚ)
            < (2 : ℚ) ^ ((log2N n : ℤ) - (log2N d : ℤ) - 1) * (2 : ℚ) ^ ((log2N d : ℤ) + 1) :=
              mul_lt_mul_of_pos_left hd2Q (zpow_pos (by norm_num) _)
          _ = (2 : ℚ) ^ (log2N n : ℤ) := by
              rw [← zpow_add₀ (by norm_num : (2 : ℚ) ≠ 0)]
              ring_nf
      exact le_of_lt (lt_of_lt_of_le hlt hn1Q)
    · have hiff := pow2le_iff (k := (log2N n : ℤ) - (log2N d : ℤ)) hn hd
      rw [show (log2N n : ℤ) - (log2N d : ℤ) - 1 + 1 = (log2N n : ℤ) - (log2N d : ℤ) by ring]
      have hnot : ¬((2 : ℚ) ^ ((log2N n : ℤ) - (log2N d : ℤ)) ≤ (n : ℚ) / d) := by
        intro hcon
        rw [← hiff] at hcon
        rw [hcon] at hp
        exact hp rfl
      linarith [hnot]

theorem scaled_div_eq {n d : ℕ} (hd : 1 ≤ d) (t : ℤ) :
    (n : ℚ) / d * (2 : ℚ) ^ t
      = ((n * 2 ^ (max t 0).toNat : ℕ) : ℚ) / ((d * 2 ^ (max (-t) 0).toNat : ℕ) : ℚ) := by
  have hdQ : (0 : ℚ) < (d : ℚ) := by exact_mod_cast hd
  rcases le_or_lt 0 t with ht | ht
  · rw [max_eq_left ht, max_eq_right (by omega : -t ≤ 0)]
    have h1 : (2 : ℚ) ^ t = (2 : ℚ) ^ (t.toNat : ℕ) := by
      rw [← zpow_natCast (2 : ℚ) t.toNat]
      congr 1
      omega
    push_cast
    rw [h1]
    field_simp
  · rw [max_eq_right (by omega : t ≤ 0), max_eq_left (by omega : 0 ≤ -t)]
    have h1 : (2 : ℚ) ^ t = ((2 : ℚ) ^ ((-t).toNat : ℕ))⁻¹ := by
      rw [← zpow_natCast (2 : ℚ) (-t).toNat, ← zpow_neg]
      congr 1
      omega
    push_cast
    rw [h1]
    have h2 : (0 : ℚ) < (2 : ℚ) ^ ((-t).toNat : ℕ) := by positivity
    field_simp

theorem rndRat_den {n d : ℕ} (hn : 1 ≤ n) (hd : 1 ≤ d) :
    den (rndRat n d) = rneQ ((n : ℚ) / d) := by
  have hdQ : (0 : ℚ) < (d : ℚ) := by exact_mod_cast hd
  have hnQ : (0 : ℚ) < (n : ℚ) := by exact_mod_cast hn
  have hx : (0 : ℚ) < (n : ℚ) / d := div_pos hnQ hdQ
  obtain ⟨hb1, hb2⟩ := ratExp_binade hn hd
  have hlogE : Int.log 2 ((n : ℚ) / d) = ratExp n d := by
    have h1 : ratExp n d ≤ Int.log 2 ((n : ℚ) / d) := by
      rw [← Int.zpow_le_iff_le_log (by norm_num : 1 < 2) hx]
      push_cast
      exact hb1
    have h2 : Int.log 2 ((n : ℚ) / d) < ratExp n d + 1 := by
      rw [← Int.lt_zpow_iff_log_lt (by norm_num : 1 < 2) hx]
      push_cast
      exact hb2
    omega
  have hD' : 1 ≤ d * 2 ^ (max (-(52 - ratExp n d)) 0).toNat := by
    have h2 : 0 < 2 ^ (max (-(52 - ratExp n d)) 0).toNat := pow_pos (by norm_num) _
    exact Nat.one_le_iff_ne_zero.mpr (Nat.mul_ne_zero (by omega) (by omega))
  unfold rndRat
  rw [if_neg (by omega : ¬(n = 0 ∨ d = 0))]
  unfold den
  dsimp only
  rw [rneIntNat_cast _ _ hD', ← scaled_div_eq hd (52 - ratExp n d)]
  unfold rneQ
  rw [hlogE]

theorem rneInt_intCast (n : ℤ) : rneInt (n : ℚ) = n := by
  unfold rneInt
  rw [Int.fract_intCast, Int.floor_intCast]
  norm_num

theorem rndDy_den {a : Dy} (ha : 0 < a.m) : den (rndDy a) = rneQ (den a) := by
  have hm0 : a.m ≠ 0 := by omega
  have hs1 : 1 ≤ a.m.natAbs := by omega
  have hsQ : ((a.m.natAbs : ℤ) : ℚ) = (a.m : ℚ) := by
    exact_mod_cast congrArg (Int.cast : ℤ → ℚ) (Int.natAbs_of_nonneg (le_of_lt ha))
  have hden : den a = (a.m.natAbs : ℚ) * (2 : ℚ) ^ a.e := by
    unfold den
    congr 1
    rw [← hsQ]
    exact Int.cast_natCast _
  have hxpos : 0 < den a := (den_pos_iff a).mpr ha
  obtain ⟨hb1, hb2⟩ := log2N_spec a.m.natAbs hs1
  have hb1Q : (2 : ℚ) ^ (log2N a.m.natAbs : ℤ) ≤ (a.m.natAbs : ℚ) := by
    rw [zpow_natCast]
    exact_mod_cast hb1
  have hb2Q : (a.m.natAbs : ℚ) < (2 : ℚ) ^ ((log2N a.m.natAbs : ℤ) + 1) := by
    rw [show ((log2N a.m.natAbs : ℤ) + 1) = ((log2N a.m.natAbs + 1 : ℕ) : ℤ) by push_cast; ring,
      zpow_natCast]
    exact_mod_cast hb2
  have hlog : Int.log 2 (den a) = (log2N a.m.natAbs : ℤ) + a.e := by
    have h1 : (log2N a.m.natAbs : ℤ) + a.e ≤ Int.log 2 (den a) := by
      rw [← Int.zpow_le_iff_le_log (by norm_num : 1 < 2) hxpos]
      push_cast
      rw [hden, zpow_add₀ (by norm_num : (2 : ℚ) ≠ 0)]
      exact mul_le_mul_of_nonneg_right hb1Q (le_of_lt (zpow_pos (by norm_num) _))
    have h2 : Int.log 2 (den a) < (log2N a.m.natAbs : ℤ) + a.e + 1 := by
      rw [← Int.lt_zpow_iff_log_lt (by norm_num : 1 < 2) hxpos]
      push_cast
      rw [hden, show (log2N a.m.natAbs : ℤ) + a.e + 1 = ((log2N a.m.natAbs : ℤ) + 1) + a.e by ring,
        zpow_add₀ (by norm_num : (2 : ℚ) ≠ 0)]
      exact mul_lt_mul_of_pos_right hb2Q (zpow_pos (by norm_num) _)
    omega
  unfold rndDy
  rw [if_neg hm0]
  split
  · next hble =>
    unfold rneQ
    rw [hlog]
    have harg : den a * (2 : ℚ) ^ (52 - ((log2N a.m.natAbs : ℤ) + a.e))
        = (((a.m.natAbs * 2 ^ (52 - log2N a.m.natAbs) : ℕ) : ℤ) : ℚ) := by
      rw [hden, mul_assoc, ← zpow_add₀ (by norm_num : (2 : ℚ) ≠ 0)]
      rw [show a.e + (52 - ((log2N a.m.natAbs : ℤ) + a.e)) = ((52 - log2N a.m.natAbs : ℕ) : ℤ)
        by omega]
      rw [zpow_natCast]
      norm_cast
    rw [harg, rneInt_intCast]
    rw [hden,
      show (((a.m.natAbs * 2 ^ (52 - log2N a.m.natAbs) : ℕ) : ℤ) : ℚ)
        = (a.m.natAbs : ℚ) * (2 : ℚ) ^ ((52 - log2N a.m.natAbs : ℕ) : ℤ) by
        rw [zpow_natCast]
        norm_cast]
    rw [mul_assoc, ← zpow_add₀ (by norm_num : (2 : ℚ) ≠ 0)]
    rw [show ((52 - log2N a.m.natAbs : ℕ) : ℤ) + ((log2N a.m.natAbs : ℤ) + a.e - 52) = a.e
      by omega]
  · next hbgt =>
    rw [if_neg (by omega : ¬a.m < 0)]
    have hD : 1 ≤ 2 ^ (log2N a.m.natAbs - 52) := Nat.one_le_two_pow
    have hlhs : den ⟨(rneIntNat a.m.natAbs (2 ^ (log2N a.m.natAbs - 52)) : ℤ),
        a.e + ((log2N a.m.natAbs - 52 : ℕ) : ℤ)⟩
        = (rneInt ((a.m.natAbs : ℚ) / ((2 ^ (log2N a.m.natAbs - 52) : ℕ) : ℚ)) : ℚ)
          * (2 : ℚ) ^ (a.e + ((log2N a.m.natAbs - 52 : ℕ) : ℤ)) := by
      unfold den
      dsimp only
      congr 1
      exact_mod_cast rneIntNat_cast _ _ hD
    rw [hlhs]
    unfold rneQ
    rw [hlog]
    have harg : den a * (2 : ℚ) ^ (52 - ((log2N a.m.natAbs : ℤ) + a.e))
        = (a.m.natAbs : ℚ) / ((2 ^ (log2N a.m.natAbs - 52) : ℕ) : ℚ) := by
      rw [hden, mul_assoc, ← zpow_add₀ (by norm_num : (2 : ℚ) ≠ 0)]
      rw [show a.e + (52 - ((log2N a.m.natAbs : ℤ) + a.e))
          = -(((log2N a.m.natAbs - 52 : ℕ) : ℤ)) by omega]
      rw [zpow_neg, zpow_natCast]
      rw [div_eq_mul_inv]
      congr 2
      norm_cast
    rw [harg,
      show a.e + ((log2N a.m.natAbs - 52 : ℕ) : ℤ) = (log2N a.m.natAbs : ℤ) + a.e - 52
        by omega]

theorem rndRat_den_nonneg (n d : ℕ) : 0 ≤ den (rndRat n d) := by
  rw [den_nonneg_iff]
  unfold rndRat
  split
  · exact le_refl 0
  · exact Int.natCast_nonneg _

theorem rndRat_zero_den (d : ℕ) : den (rndRat 0 d) = 0 := by
  unfold rndRat
  rw [if_pos (Or.inl rfl)]
  unfold den
  norm_num

theorem rndRat_mono {i j d : ℕ} (hij : i ≤ j) (hd : 1 ≤ d) :
    den (rndRat i d) ≤ den (rndRat j d) := by
  rcases Nat.eq_zero_or_pos i with hi | hi
  · subst hi
    rw [rndRat_zero_den]
    exact rndRat_den_nonneg j d
  · have hj : 1 ≤ j := le_trans hi hij
    rw [rndRat_den hi hd, rndRat_den hj hd]
    have hdQ : (0 : ℚ) < (d : ℚ) := by exact_mod_cast hd
    apply rneQ_mono (div_pos (by exact_mod_cast hi) hdQ)
    gcongr


theorem rndDy_zero {a : Dy} (h : a.m = 0) : rndDy a = ⟨0, 0⟩ := by
  unfold rndDy
  rw [if_pos h]

theorem rndDy_den_nonneg {a : Dy} (h : 0 ≤ den a) : 0 ≤ den (rndDy a) := by
  rcases eq_or_lt_of_le ((den_nonneg_iff a).mp h) with hm | hm
  · rw [rndDy_zero hm.symm]
    unfold den
    norm_num
  · rw [rndDy_den hm]
    have h1 := rneQ_ge ((den_pos_iff a).mpr hm)
    have h2 : (0 : ℚ) < (2 : ℚ) ^ Int.log 2 (den a) := zpow_pos (by norm_num) _
    linarith

theorem rndDy_den_mono {a b : Dy} (ha : 0 ≤ den a) (hab : den a ≤ den b) :
    den (rndDy a) ≤ den (rndDy b) := by
  rcases eq_or_lt_of_le ((den_nonneg_iff a).mp ha) with hm | hm
  · rw [rndDy_zero hm.symm]
    have h0 : den (⟨0, 0⟩ : Dy) = 0 := by unfold den; norm_num
    rw [h0]
    exact rndDy_den_nonneg (le_trans ha hab)
  · have hb : 0 < den b := lt_of_lt_of_le ((den_pos_iff a).mpr hm) hab
    rw [rndDy_den hm, rndDy_den ((den_pos_iff b).mp hb)]
    exact rneQ_mono ((den_pos_iff a).mpr hm) hab

theorem den_dyMul (a b : Dy) : den (dyMul a b) = den a * den b := by
  unfold dyMul den
  push_cast
  rw [zpow_add₀ (by norm_num : (2 : ℚ) ≠ 0)]
  ring

theorem den_lit11_pos : 0 < den lit11 :=
  (den_pos_iff _).mpr (by decide : 0 < lit11.m)

theorem den_lit05 : den lit05 = 1 / 2 := by
  unfold lit05 den
  rw [show ((-1 : ℤ)) = -((1 : ℕ) : ℤ) by norm_num, zpow_neg, zpow_natCast]
  norm_num

theorem shade_factor_den_nonneg (N i : ℕ) : 0 ≤ den (shade_factor N i) := by
  unfold shade_factor
  apply rndDy_den_nonneg
  rw [den_dyAdd, den_lit05]
  have h1 : 0 ≤ den (rndDy (dyMul (rndRat i (N - 1)) lit11)) := by
    apply rndDy_den_nonneg
    rw [den_dyMul]
    exact mul_nonneg (rndRat_den_nonneg _ _) (le_of_lt den_lit11_pos)
  linarith

theorem shade_factor_mono {N i j : ℕ} (hN : 2 ≤ N) (hij : i ≤ j) :
    den (shade_factor N i) ≤ den (shade_factor N j) := by
  unfold shade_factor
  apply rndDy_den_mono
  · rw [den_dyAdd, den_lit05]
    have h1 : 0 ≤ den (rndDy (dyMul (rndRat i (N - 1)) lit11)) := by
      apply rndDy_den_nonneg
      rw [den_dyMul]
      exact mul_nonneg (rndRat_den_nonneg _ _) (le_of_lt den_lit11_pos)
    linarith
  · rw [den_dyAdd, den_dyAdd]
    apply add_le_add_left
    apply rndDy_den_mono
    · rw [den_dyMul]
      exact mul_nonneg (rndRat_den_nonneg _ _) (le_of_lt den_lit11_pos)
    · rw [den_dyMul, den_dyMul]
      exact mul_le_mul_of_nonneg_right (rndRat_mono hij (by omega)) (le_of_lt den_lit11_pos)

theorem dyFloor_eq (a : Dy) : dyFloor a = ⌊den a⌋ := by
  unfold dyFloor den
  split
  · next h =>
    rw [show (2 : ℚ) ^ a.e = ((2 ^ a.e.toNat : ℕ) : ℚ) by
      nth_rewrite 1 [show a.e = (a.e.toNat : ℤ) by omega]
      rw [zpow_natCast]
      norm_cast]
    rw [show (a.m : ℚ) * ((2 ^ a.e.toNat : ℕ) : ℚ) = ((a.m * 2 ^ a.e.toNat : ℤ) : ℚ) by
      push_cast
      ring]
    rw [Int.floor_intCast]
  · next h =>
    rw [show (2 : ℚ) ^ a.e = (((2 ^ (-a.e).toNat : ℕ)) : ℚ)⁻¹ by
      nth_rewrite 1 [show a.e = -(((-a.e).toNat : ℤ)) by omega]
      rw [zpow_neg, zpow_natCast]
      norm_cast]
    rw [← div_eq_mul_inv, show ((a.m : ℚ)) = (((a.m : ℤ)) : ℚ) from rfl,
      Rat.floor_intCast_div_natCast]
    congr 1
    norm_cast

theorem shade_channel_mono (c : ℕ) {N i j : ℕ} (hN : 2 ≤ N) (hij : i ≤ j) :
    shade_channel c N i ≤ shade_channel c N j := by
  unfold shade_channel clamp_channel
  have hfl : dyFloor (rndDy (dyMul ⟨(c : ℤ), 0⟩ (shade_factor N i)))
      ≤ dyFloor (rndDy (dyMul ⟨(c : ℤ), 0⟩ (shade_factor N j))) := by
    rw [dyFloor_eq, dyFloor_eq]
    apply Int.floor_mono
    apply rndDy_den_mono
    · rw [den_dyMul]
      apply mul_nonneg _ (shade_factor_den_nonneg N i)
      unfold den
      dsimp only
      positivity
    · rw [den_dyMul, den_dyMul]
      apply mul_le_mul_of_nonneg_left (shade_factor_mono hN hij)
      unfold den
      dsimp only
      positivity
  omega

/-- C8 (amended): for every base color and every `N ≥ 2`, each RGB
channel of the generated shades is monotonically non-decreasing in the
shade index, and every channel lies in `[30, 255]`, so no shade is fully
black; a shade can however be fully white (all channels 255) when the
base channels are large, so "never fully white" does not hold. -/
theorem shades_monotone (base : RGB) (N : ℕ) (hN : 2 ≤ N) :
    ∃ l, generate_month_shades base N = some l ∧
      List.Chain' (fun s t : RGB => s.1 ≤ t.1 ∧ s.2.1 ≤ t.2.1 ∧ s.2.2 ≤ t.2.2) l ∧
      (∀ s ∈ l, (30 ≤ s.1 ∧ s.1 ≤ 255) ∧ (30 ≤ s.2.1 ∧ s.2.1 ≤ 255) ∧
        (30 ≤ s.2.2 ∧ s.2.2 ≤ 255) ∧ s ≠ (0, 0, 0)) := by
  have hne : N ≠ 1 := by omega
  refine ⟨_, by rw [generate_month_shades, if_neg hne], ?_, ?_⟩
  · rw [List.chain'_map]
    obtain ⟨N', rfl⟩ : ∃ N', N = N' + 1 := ⟨N - 1, by omega⟩
    refine (List.chain'_range_succ _ N').mpr ?_
    intro m _
    exact ⟨shade_channel_mono _ hN (Nat.le_succ m),
      shade_channel_mono _ hN (Nat.le_succ m),
      shade_channel_mono _ hN (Nat.le_succ m)⟩
  · intro s hs
    obtain ⟨i, _, rfl⟩ := List.mem_map.mp hs
    refine ⟨⟨(shade_channel_bounds _ _ _).1, (shade_channel_bounds _ _ _).2⟩,
      ⟨(shade_channel_bounds _ _ _).1, (shade_channel_bounds _ _ _).2⟩,
      ⟨(shade_channel_bounds _ _ _).1, (shade_channel_bounds _ _ _).2⟩, ?_⟩
    intro hcon
    have h30 := (shade_channel_bounds base.1 N i).1
    have hfst := congrArg Prod.fst hcon
    simp only at hfst
    omega

/-- Witness for `shades_monotone` at the 2023 base color and `N = 12`. -/
theorem shades_monotone_witness :
    ∃ l, generate_month_shades (90, 122, 106) 12 = some l ∧
      List.Chain' (fun s t : RGB => s.1 ≤ t.1 ∧ s.2.1 ≤ t.2.1 ∧ s.2.2 ≤ t.2.2) l ∧
      (∀ s ∈ l, (30 ≤ s.1 ∧ s.1 ≤ 255) ∧ (30 ≤ s.2.1 ∧ s.2.1 ≤ 255) ∧
        (30 ≤ s.2.2 ∧ s.2.2 ≤ 255) ∧ s ≠ (0, 0, 0)) :=
  shades_monotone (90, 122, 106) 12 (by decide)
